import Mathlib

/-!
Verification of the PageToMarkdown content-conversion core
(`src/content.js`, class `AdvancedMarkdownConverter`) against its
natural-language specification.  The JavaScript functions are shallowly
embedded as executable Lean definitions over `String` / `List Char`.
-/

namespace PageToMD

/-- Characters JavaScript's `String.prototype.trim` and `\s` treat as
whitespace (the subset that can actually occur in the texts at hand):
space, tab, LF, CR, VT, FF, NBSP, BOM, line/paragraph separator. -/
def isJsWs (c : Char) : Bool :=
  c = ' ' || c = '\t' || c = '\n' || c = '\r' ||
  c = Char.ofNat 11 || c = Char.ofNat 12 ||
  c = Char.ofNat 160 || c = Char.ofNat 0xFEFF ||
  c = Char.ofNat 0x2028 || c = Char.ofNat 0x2029

/-- Remove the trailing run of JS-whitespace characters. -/
def jsTrimEnd (l : List Char) : List Char :=
  (l.reverse.dropWhile isJsWs).reverse

/-- JavaScript `s.trim()` on a character list. -/
def jsTrimL (l : List Char) : List Char :=
  jsTrimEnd (l.dropWhile isJsWs)

/-- JavaScript `s.trim()`. -/
def jsTrim (s : String) : String := String.mk (jsTrimL s.data)

/-- The backtick character. -/
def btick : Char := Char.ofNat 96

/-- `longestRunAux l cur best`: longest run of backticks in `l`, given a
current open run of length `cur` and best-so-far `best`.  Models the
`code.match(/`+/g)` + max fold in `computeFence`. -/
def longestRunAux : List Char → Nat → Nat → Nat
  | [], cur, best => max best cur
  | c :: rest, cur, best =>
    if c = btick then longestRunAux rest (cur + 1) best
    else longestRunAux rest 0 (max best cur)

/-- Length of the longest run of backtick characters in `s`. -/
def longestBacktickRun (s : String) : Nat := longestRunAux s.data 0 0

/-- `computeFence` from `content.js`:
`'`'.repeat(Math.max(3, max + 1))` where `max` is the longest backtick
run in the code. -/
def computeFence (code : String) : String :=
  String.mk (List.replicate (max 3 (longestBacktickRun code + 1)) btick)

/-- The `preformattedCode` turndown rule's replacement, as a function of
the detected language and the raw text content of the `pre`/`code`
element (`content.js` lines 58–75). -/
def preformattedCodeReplacement (language : String) (rawText : String) : String :=
  let code := jsTrim rawText
  if code = "" then ""
  else
    let fence := computeFence code
    "\n\n" ++ fence ++ language ++ "\n" ++ code ++ "\n" ++ fence ++ "\n\n"

theorem computeFence_length (code : String) :
    (computeFence code).length = max 3 (longestBacktickRun code + 1) := by
  simp [computeFence, String.length]

/-- C1: for non-empty trimmed code the block-code rule emits an opening
fence of length `max 3 (k+1)` (`k` = longest backtick run), the language
directly after it, a single newline before the code; for empty trimmed
code it emits nothing. -/
theorem preformattedCode_spec (language rawText : String)
    (code : String) (hc : code = jsTrim rawText) :
    (code ≠ "" →
      preformattedCodeReplacement language rawText =
        "\n\n" ++ computeFence code ++ language ++ "\n" ++ code ++ "\n" ++
          computeFence code ++ "\n\n"
      ∧ (computeFence code).length = max 3 (longestBacktickRun code + 1)
      ∧ longestBacktickRun code < (computeFence code).length)
    ∧ (code = "" → preformattedCodeReplacement language rawText = "") := by
  subst hc
  constructor
  · intro hne
    refine ⟨?_, computeFence_length _, ?_⟩
    · simp only [preformattedCodeReplacement, if_neg hne]
    · rw [computeFence_length]
      omega
  · intro he
    simp only [preformattedCodeReplacement, if_pos he]

/-! ### C5: `cleanupMarkdown` (content.js lines 607–609)

`markdown.replace(/\n{4,}/g, '\n\n').replace(/[ \t]+$/gm, '').trim()` -/

/-- First replace of `cleanupMarkdown`: every maximal run of `n ≥ 4`
newlines becomes exactly 2, shorter runs are kept.  `pending` counts
newlines seen but not yet emitted. -/
def collapseNlAux : List Char → Nat → List Char
  | [], pending => List.replicate (if 4 ≤ pending then 2 else pending) '\n'
  | c :: rest, pending =>
    if c = '\n' then collapseNlAux rest (pending + 1)
    else
      List.replicate (if 4 ≤ pending then 2 else pending) '\n' ++ c :: collapseNlAux rest 0

def collapseNlL (l : List Char) : List Char := collapseNlAux l 0

/-- Horizontal whitespace of the `/[ \t]+$/gm` regex. -/
def isHorizWs (c : Char) : Bool := c = ' ' || c = '\t'

/-- Second replace of `cleanupMarkdown`: delete every maximal run of
spaces/tabs standing immediately before a newline or the end of the
string.  `pending` is the reversed run of horizontal whitespace read but
not yet emitted. -/
def stripTWAux : List Char → List Char → List Char
  | [], _pending => []
  | c :: rest, pending =>
    if isHorizWs c then stripTWAux rest (c :: pending)
    else if c = '\n' then '\n' :: stripTWAux rest []
    else pending.reverse ++ c :: stripTWAux rest []

def stripTrailingWsL (l : List Char) : List Char := stripTWAux l []

/-- `cleanupMarkdown` from `content.js`. -/
def cleanupMarkdown (s : String) : String :=
  String.mk (jsTrimL (stripTrailingWsL (collapseNlL s.data)))

/-- Scanner: does the list contain a run of ≥ 4 consecutive newlines,
`n` of them already seen? -/
def nlScan : List Char → Nat → Bool
  | [], _ => false
  | c :: rest, n =>
    if c = '\n' then (if 3 ≤ n then true else nlScan rest (n + 1))
    else nlScan rest 0

/-- `l` contains a run of 4 or more consecutive newline characters. -/
def hasNlRun4 (l : List Char) : Bool := nlScan l 0

/-- Scanner: does some line end in a space or tab (including the last
line, at end of input)?  `flag` records whether the previous character
was horizontal whitespace. -/
def twScan : List Char → Bool → Bool
  | [], flag => flag
  | c :: rest, flag =>
    if c = '\n' then (flag || twScan rest false) else twScan rest (isHorizWs c)

theorem nlScan_replicate_le3 (k : Nat) (hk : k ≤ 3) :
    nlScan (List.replicate k '\n') 0 = false := by
  interval_cases k <;> simp [nlScan, List.replicate]

theorem nlScan_replicate_append (k : Nat) (hk : k ≤ 3) (c : Char)
    (hc : ¬ c = '\n') (xs : List Char) :
    nlScan (List.replicate k '\n' ++ c :: xs) 0 = nlScan xs 0 := by
  interval_cases k <;> simp [nlScan, List.replicate, hc]

theorem collapseNlAux_no_run4 (l : List Char) :
    ∀ pending : Nat, nlScan (collapseNlAux l pending) 0 = false := by
  induction l with
  | nil =>
    intro pending
    by_cases h4 : 4 ≤ pending
    · simp only [collapseNlAux, if_pos h4]
      exact nlScan_replicate_le3 2 (by omega)
    · simp only [collapseNlAux, if_neg h4]
      exact nlScan_replicate_le3 pending (by omega)
  | cons c rest ih =>
    intro pending
    by_cases hc : c = '\n'
    · simp only [collapseNlAux, if_pos hc]
      exact ih (pending + 1)
    · simp only [collapseNlAux, if_neg hc]
      by_cases h4 : 4 ≤ pending
      · rw [if_pos h4, nlScan_replicate_append 2 (by omega) c hc]
        exact ih 0
      · rw [if_neg h4, nlScan_replicate_append pending (by omega) c hc]
        exact ih 0

theorem twScan_horizRun (run : List Char) (h : ∀ a ∈ run, isHorizWs a = true)
    (c : Char) (hc1 : isHorizWs c = false) (hc2 : ¬ c = '\n') (xs : List Char)
    (b : Bool) : twScan (run ++ c :: xs) b = twScan xs false := by
  induction run generalizing b with
  | nil => simp [twScan, hc2, hc1]
  | cons w ws ih =>
    have hw : isHorizWs w = true := h w (by simp)
    have hwn : ¬ w = '\n' := by
      intro he
      rw [he] at hw
      simp [isHorizWs] at hw
    have hws : ∀ a ∈ ws, isHorizWs a = true := fun a ha => h a (by simp [ha])
    simp only [List.cons_append, twScan, if_neg hwn]
    exact ih hws _

theorem stripTWAux_no_trailing (l : List Char) :
    ∀ acc : List Char, (∀ a ∈ acc, isHorizWs a = true) →
      twScan (stripTWAux l acc) false = false := by
  induction l with
  | nil => intro acc _; rfl
  | cons c rest ih =>
    intro acc hacc
    by_cases hh : isHorizWs c
    · simp only [stripTWAux, if_pos hh]
      exact ih (c :: acc) (by
        intro a ha
        rcases List.mem_cons.mp ha with h1 | h2
        · rw [h1]; exact hh
        · exact hacc a h2)
    · by_cases hn : c = '\n'
      · simp only [stripTWAux, if_neg hh, if_pos hn, twScan, if_pos rfl,
          Bool.false_or]
        exact ih [] (by intro a ha; simp at ha)
      · simp only [stripTWAux, if_neg hh, if_neg hn]
        rw [twScan_horizRun acc.reverse
          (by intro a ha; exact hacc a (List.mem_reverse.mp ha))
          c (by simpa using hh) hn]
        exact ih [] (by intro a ha; simp at ha)

theorem dropWhile_dropWhile (p : Char → Bool) (l : List Char) :
    (l.dropWhile p).dropWhile p = l.dropWhile p := by
  induction l with
  | nil => rfl
  | cons c cs ih =>
    by_cases h : p c
    · simp [List.dropWhile_cons, h, ih]
    · simp [List.dropWhile_cons, h]

theorem dropWhile_head_false (p : Char → Bool) (l : List Char) :
    ∀ c cs, l.dropWhile p = c :: cs → p c = false := by
  induction l with
  | nil => intro c cs h; simp [List.dropWhile] at h
  | cons a as ih =>
    intro c cs h
    by_cases ha : p a
    · rw [List.dropWhile_cons, if_pos ha] at h
      exact ih c cs h
    · rw [List.dropWhile_cons, if_neg ha] at h
      injection h with h1 h2
      rw [← h1]
      simpa using ha

theorem jsTrimEnd_idem (l : List Char) : jsTrimEnd (jsTrimEnd l) = jsTrimEnd l := by
  simp [jsTrimEnd, List.reverse_reverse, dropWhile_dropWhile]

theorem jsTrimEnd_isPrefix (l : List Char) : jsTrimEnd l <+: l := by
  have h : l.reverse.dropWhile isJsWs <:+ l.reverse := List.dropWhile_suffix _
  have := List.reverse_prefix.mpr h
  simpa [jsTrimEnd] using this

theorem jsTrimL_dropWhile (l : List Char) :
    (jsTrimL l).dropWhile isJsWs = jsTrimL l := by
  unfold jsTrimL
  rcases he : jsTrimEnd (l.dropWhile isJsWs) with _ | ⟨c, cs⟩
  · rfl
  · have hp : jsTrimEnd (l.dropWhile isJsWs) <+: l.dropWhile isJsWs :=
      jsTrimEnd_isPrefix _
    rw [he] at hp
    obtain ⟨t, ht⟩ := hp
    have hc : isJsWs c = false := by
      apply dropWhile_head_false isJsWs l c (cs ++ t)
      rw [← ht]; rfl
    rw [List.dropWhile_cons, if_neg (by simp [hc])]

theorem jsTrimL_idem (l : List Char) : jsTrimL (jsTrimL l) = jsTrimL l := by
  conv_lhs => rw [jsTrimL, jsTrimL_dropWhile]
  rw [jsTrimL, jsTrimEnd_idem]

/-- C5 counterexample: a line holding only a space breaks the `\n{4,}`
collapse, and the later per-line strip turns it into two adjacent
newline pairs, so the final output contains a run of 4 newlines. -/
theorem cleanupMarkdown_run4_cex :
    cleanupMarkdown "a\n\n \n\nb" = "a\n\n\n\nb" ∧
    hasNlRun4 (cleanupMarkdown "a\n\n \n\nb").data = true := by
  constructor <;> decide

/-- C5 (amended): `cleanupMarkdown` collapses runs of ≥ 4 newlines to 2,
then strips trailing horizontal whitespace per line, then trims the
whole string; the collapse stage leaves no run of ≥ 4 newlines, the
strip stage leaves no line ending in space/tab, the final output is a
fixed point of trimming, and 6 newlines between paragraphs become 2. -/
theorem cleanupMarkdown_spec :
    (∀ s : String, hasNlRun4 (collapseNlL s.data) = false)
    ∧ (∀ l : List Char, twScan (stripTrailingWsL l) false = false)
    ∧ (∀ s : String, jsTrim (cleanupMarkdown s) = cleanupMarkdown s)
    ∧ cleanupMarkdown "P1\n\n\n\n\n\nP2" = "P1\n\nP2" := by
  refine ⟨?_, ?_, ?_, by decide⟩
  · intro s
    exact collapseNlAux_no_run4 s.data 0
  · intro l
    exact stripTWAux_no_trailing l [] (by intro a ha; simp at ha)
  · intro s
    simp [jsTrim, cleanupMarkdown, jsTrimL_idem]

/-! ### C7: code-text canonicalization (content.js lines 385–402)

`codeText.replace(/\r\n/g,'\n').replace(/\r/g,'\n')`, then
`.replace(/ /g,' ')`, then `.replace(/\n+$/g,'')`. -/

/-- `codeText.replace(/\r\n/g, '\n')`. -/
def replaceCrlf : List Char → List Char
  | [] => []
  | [c] => [c]
  | c :: d :: rest =>
    if c = '\r' ∧ d = '\n' then '\n' :: replaceCrlf rest
    else c :: replaceCrlf (d :: rest)

/-- `codeText.replace(/\r/g, '\n')`. -/
def replaceCr (l : List Char) : List Char :=
  l.map (fun c => if c = '\r' then '\n' else c)

/-- `codeText.replace(/ /g, ' ')`. -/
def replaceNbsp (l : List Char) : List Char :=
  l.map (fun c => if c = Char.ofNat 160 then ' ' else c)

/-- `codeText.replace(/\n+$/g, '')`. -/
def stripEndNl (l : List Char) : List Char :=
  (l.reverse.dropWhile (fun c => c = '\n')).reverse

/-- The code-text canonicalization applied to each `pre` in
`normalizeContentHtml`; on re-normalization the rebuilt `pre` has a
single `code` child whose `textContent` is exactly this output, so a
second pass applies this same function to it. -/
def normalizeCodeText (s : String) : String :=
  String.mk (stripEndNl (replaceNbsp (replaceCr (replaceCrlf s.data))))

theorem replaceCr_no_cr (l : List Char) : '\r' ∉ replaceCr l := by
  intro h
  rcases List.mem_map.mp h with ⟨c, _, hc⟩
  by_cases hr : c = '\r' <;> simp [hr] at hc

theorem replaceNbsp_mem (l : List Char) {x : Char} (hx : x ∈ replaceNbsp l) :
    x ∈ l ∨ x = ' ' := by
  rcases List.mem_map.mp hx with ⟨c, hc, he⟩
  by_cases hn : c = Char.ofNat 160
  · right; rw [← he]; simp [hn]
  · left; rw [← he]; simpa [hn] using hc

theorem stripEndNl_subset (l : List Char) {x : Char} (hx : x ∈ stripEndNl l) :
    x ∈ l := by
  have h1 : x ∈ l.reverse.dropWhile (fun c => c = '\n') := by
    simpa [stripEndNl] using hx
  have h2 : x ∈ l.reverse := (List.dropWhile_suffix _).subset h1
  simpa using h2

theorem replaceCrlf_of_no_cr (l : List Char) (h : '\r' ∉ l) :
    replaceCrlf l = l := by
  induction l with
  | nil => rfl
  | cons c cs ih =>
    have hc : ¬ c = '\r' := fun he => h (by simp [he])
    have hcs : '\r' ∉ cs := fun hm => h (by simp [hm])
    rcases cs with _ | ⟨d, ds⟩
    · rfl
    · have hcond : ¬ (c = '\r' ∧ d = '\n') := fun hand => hc hand.1
      simp only [replaceCrlf, if_neg hcond]
      rw [ih hcs]

theorem replaceNbsp_no_nbsp (l : List Char) : Char.ofNat 160 ∉ replaceNbsp l := by
  intro h
  rcases List.mem_map.mp h with ⟨c, _, hc⟩
  by_cases hn : c = Char.ofNat 160 <;> simp [hn] at hc

theorem replaceCr_of_no_cr (l : List Char) (h : '\r' ∉ l) :
    replaceCr l = l := by
  induction l with
  | nil => rfl
  | cons c cs ih =>
    have hc : ¬ c = '\r' := fun he => h (by simp [he])
    have hcs : '\r' ∉ cs := fun hm => h (by simp [hm])
    simp [replaceCr] at ih ⊢
    exact ⟨by simp [hc], ih hcs⟩

theorem replaceNbsp_of_no_nbsp (l : List Char) (h : Char.ofNat 160 ∉ l) :
    replaceNbsp l = l := by
  induction l with
  | nil => rfl
  | cons c cs ih =>
    have hc : ¬ c = Char.ofNat 160 := fun he => h (by simp [he])
    have hcs : Char.ofNat 160 ∉ cs := fun hm => h (by simp [hm])
    simp [replaceNbsp] at ih ⊢
    exact ⟨by simp [hc], ih hcs⟩

theorem stripEndNl_idem (l : List Char) :
    stripEndNl (stripEndNl l) = stripEndNl l := by
  simp [stripEndNl, List.reverse_reverse, dropWhile_dropWhile]

/-- C7: re-normalizing already-canonicalized code text yields the
byte-identical string. -/
theorem normalizeCodeText_idem (s : String) :
    normalizeCodeText (normalizeCodeText s) = normalizeCodeText s := by
  unfold normalizeCodeText
  have hnocr : '\r' ∉ stripEndNl (replaceNbsp (replaceCr (replaceCrlf s.data))) := by
    intro hmem
    rcases replaceNbsp_mem _ (stripEndNl_subset _ hmem) with h | h
    · exact replaceCr_no_cr _ h
    · simp at h
  have hnonbsp :
      Char.ofNat 160 ∉ stripEndNl (replaceNbsp (replaceCr (replaceCrlf s.data))) :=
    fun hmem => replaceNbsp_no_nbsp _ (stripEndNl_subset _ hmem)
  apply congrArg String.mk
  show stripEndNl (replaceNbsp (replaceCr (replaceCrlf
      (stripEndNl (replaceNbsp (replaceCr (replaceCrlf s.data))))))) = _
  rw [replaceCrlf_of_no_cr _ hnocr, replaceCr_of_no_cr _ hnocr,
    replaceNbsp_of_no_nbsp _ hnonbsp, stripEndNl_idem]

/-! ### C6: `extractTags` (content.js lines 682–694) -/

/-- JavaScript `s.split(sep)` for a one-character separator: split at
every occurrence, keeping empty pieces; the empty string yields one
empty piece. -/
def splitOnCharAux (sep : Char) : List Char → List Char → List (List Char)
  | [], cur => [cur.reverse]
  | c :: rest, cur =>
    if c = sep then cur.reverse :: splitOnCharAux sep rest []
    else splitOnCharAux sep rest (c :: cur)

def jsSplitComma (s : String) : List String :=
  (splitOnCharAux ',' s.data []).map String.mk

/-- The tag candidates in encounter order: the comma-split, trimmed
entries of the keywords meta content (when the meta tag exists with
truthy content), then the trimmed texts of `.tags a, a[rel="tag"]`
elements. -/
def extractTagsEntries (keywordsContent : Option String)
    (tagLinkTexts : List String) : List String :=
  (match keywordsContent with
   | some s => if s = "" then [] else (jsSplitComma s).map jsTrim
   | none => []) ++ tagLinkTexts.map jsTrim

/-- `Set` insertion: keep the first occurrence of each string, in
encounter order. -/
def dedupFirstAux : List String → List String → List String
  | [], _ => []
  | x :: xs, seen =>
    if x ∈ seen then dedupFirstAux xs seen else x :: dedupFirstAux xs (x :: seen)

/-- `extractTags`: dedupe via a `Set`, then `Array.from(...).slice(0, 10)`. -/
def extractTags (keywordsContent : Option String)
    (tagLinkTexts : List String) : List String :=
  (dedupFirstAux (extractTagsEntries keywordsContent tagLinkTexts) []).take 10

theorem dedupFirstAux_mem :
    ∀ (l seen : List String) (x : String), x ∈ dedupFirstAux l seen →
      x ∈ l ∧ x ∉ seen := by
  intro l
  induction l with
  | nil => intro seen x h; simp [dedupFirstAux] at h
  | cons a as ih =>
    intro seen x h
    by_cases ha : a ∈ seen
    · rw [dedupFirstAux, if_pos ha] at h
      obtain ⟨h1, h2⟩ := ih seen x h
      exact ⟨by simp [h1], h2⟩
    · rw [dedupFirstAux, if_neg ha] at h
      rcases List.mem_cons.mp h with h1 | h1
      · exact ⟨by simp [h1], h1 ▸ ha⟩
      · obtain ⟨h2, h3⟩ := ih (a :: seen) x h1
        exact ⟨by simp [h2], fun hm => h3 (by simp [hm])⟩

theorem dedupFirstAux_nodup :
    ∀ (l seen : List String), (dedupFirstAux l seen).Nodup := by
  intro l
  induction l with
  | nil => intro seen; simp [dedupFirstAux]
  | cons a as ih =>
    intro seen
    by_cases ha : a ∈ seen
    · rw [dedupFirstAux, if_pos ha]; exact ih seen
    · rw [dedupFirstAux, if_neg ha]
      refine List.nodup_cons.mpr ⟨?_, ih (a :: seen)⟩
      intro hmem
      exact (dedupFirstAux_mem as (a :: seen) a hmem).2 (by simp)

theorem dedupFirstAux_sublist :
    ∀ (l seen : List String), (dedupFirstAux l seen).Sublist l := by
  intro l
  induction l with
  | nil => intro seen; simp [dedupFirstAux]
  | cons a as ih =>
    intro seen
    by_cases ha : a ∈ seen
    · rw [dedupFirstAux, if_pos ha]
      exact (ih seen).cons a
    · rw [dedupFirstAux, if_neg ha]
      exact (ih (a :: seen)).cons₂ a

/-- C6: the tag list is deduplicated, ordered as first encountered
(a sublist of the encounter-ordered candidates), capped at 10, and hits
exactly 10 whenever at least 10 distinct candidates exist. -/
theorem extractTags_spec (keywordsContent : Option String)
    (tagLinkTexts : List String) :
    (extractTags keywordsContent tagLinkTexts).Nodup
    ∧ (extractTags keywordsContent tagLinkTexts).Sublist
        (extractTagsEntries keywordsContent tagLinkTexts)
    ∧ (extractTags keywordsContent tagLinkTexts).length ≤ 10
    ∧ (10 ≤ (dedupFirstAux (extractTagsEntries keywordsContent tagLinkTexts) []).length →
        (extractTags keywordsContent tagLinkTexts).length = 10) := by
  refine ⟨?_, ?_, ?_, ?_⟩
  · exact (dedupFirstAux_nodup _ []).sublist (List.take_sublist _ _)
  · exact (List.take_sublist _ _).trans (dedupFirstAux_sublist _ [])
  · rw [extractTags, List.length_take]; omega
  · intro h
    rw [extractTags, List.length_take]
    omega

theorem extractTags_spec_witness :
    extractTags
      (some "t1,t2,t3,t4,t5,t6,t7,t8,t9,t10,t11,t12")
      ["t13", "t14", "t15"] =
      ["t1", "t2", "t3", "t4", "t5", "t6", "t7", "t8", "t9", "t10"]
    ∧ (extractTags
        (some "t1,t2,t3,t4,t5,t6,t7,t8,t9,t10,t11,t12")
        ["t13", "t14", "t15"]).length = 10 :=
  ⟨by decide,
   (extractTags_spec (some "t1,t2,t3,t4,t5,t6,t7,t8,t9,t10,t11,t12")
      ["t13", "t14", "t15"]).2.2.2 (by decide)⟩

/-! ### C10: word count and reading time (content.js lines 667–669) -/

/-- Number of maximal whitespace-separated runs; `inWord` records
whether the previous character was part of a run. -/
def wrcAux : List Char → Bool → Nat
  | [], _ => 0
  | c :: rest, inWord =>
    if isJsWs c then wrcAux rest false
    else (if inWord then 0 else 1) + wrcAux rest true

/-- `t.split(/\s+/).length` for an already-trimmed string `t`:
splitting the empty string yields `[""]`, hence 1; otherwise the number
of maximal non-whitespace runs. -/
def jsSplitWsLen (t : List Char) : Nat :=
  if t = [] then 1 else wrcAux t false

/-- `metadata.wordCount = def?.wordCount ?? text.trim().split(/\s+/).length`. -/
def computeWordCount (defWordCount : Option Nat) (bodyText : String) : Nat :=
  match defWordCount with
  | some n => n
  | none => jsSplitWsLen (jsTrimL bodyText.data)

/-- `metadata.readingTime = Math.ceil(metadata.wordCount / 200)`. -/
def computeReadingTime (wordCount : Nat) : Nat := (wordCount + 199) / 200

/-- C10: with no heuristic word count, `wordCount` is the
whitespace-split length of the trimmed body text and is at least 1 even
for empty/all-whitespace bodies, so `readingTime = ceil(wordCount/200)`
is at least 1. -/
theorem wordCount_spec (bodyText : String) :
    computeWordCount none bodyText = jsSplitWsLen (jsTrimL bodyText.data)
    ∧ jsSplitWsLen ([] : List Char) = 1
    ∧ 1 ≤ computeWordCount none bodyText
    ∧ 1 ≤ computeReadingTime (computeWordCount none bodyText) := by
  have hge : 1 ≤ jsSplitWsLen (jsTrimL bodyText.data) := by
    rcases he : jsTrimL bodyText.data with _ | ⟨c, cs⟩
    · simp [jsSplitWsLen]
    · have hpre : jsTrimEnd (bodyText.data.dropWhile isJsWs) <+:
          bodyText.data.dropWhile isJsWs := jsTrimEnd_isPrefix _
      rw [show jsTrimEnd (bodyText.data.dropWhile isJsWs) = jsTrimL bodyText.data
        from rfl, he] at hpre
      obtain ⟨t, ht⟩ := hpre
      have hc : isJsWs c = false :=
        dropWhile_head_false isJsWs bodyText.data c (cs ++ t) (by rw [← ht]; rfl)
      simp [jsSplitWsLen, wrcAux, hc]
  refine ⟨rfl, rfl, hge, ?_⟩
  have : computeWordCount none bodyText = jsSplitWsLen (jsTrimL bodyText.data) := rfl
  rw [this, computeReadingTime]
  omega

/-! ### C3: `extractMetadata` / `getMeta` (content.js lines 644–694) -/

/-- The boundary-detection heuristic's result object, as read by
`extractMetadata` (`def?.field`). -/
structure DefuddleResult where
  title : Option String := none
  domain : Option String := none
  siteName : Option String := none
  site : Option String := none
  publication : Option String := none
  description : Option String := none
  author : Option String := none
  published : Option String := none
  wordCount : Option Nat := none

/-- The document state `extractMetadata` reads: meta tags in document
order (name-or-property key, `content` value), document title, URL
parts, body text, and the tag sources of `extractTags`. -/
structure PageEnv where
  metas : List (String × String)
  docTitle : String
  href : String
  hostname : String
  bodyText : String
  keywordsContent : Option String
  tagLinkTexts : List String
  defuddle : Option DefuddleResult

/-- The output record of `extractMetadata`. -/
structure MetadataRecord where
  title : String
  url : String
  domain : String
  source : String
  description : Option String
  author : Option String
  publishedDate : Option String
  tags : List String
  wordCount : Nat
  readingTime : Nat

/-- JavaScript `a || b` on possibly-null strings: the empty string and
null/undefined are falsy. -/
def jsOrS (a b : Option String) : Option String :=
  match a with
  | some s => if s = "" then b else some s
  | none => b

/-- First truthy value of a JS `||` chain. -/
def firstTruthy : List (Option String) → Option String
  | [] => none
  | x :: xs =>
    match x with
    | some s => if s = "" then firstTruthy xs else some s
    | none => firstTruthy xs

/-- `document.querySelector('meta[name="n"], meta[property="n"]')?.content`:
first meta tag with the given key, in document order. -/
def lookupMeta (metas : List (String × String)) (name : String) : Option String :=
  (metas.find? (fun p => p.1 = name)).map Prod.snd

/-- `getMeta` from `content.js`: first listed name whose meta element
exists with truthy content; returns that content trimmed. -/
def getMeta (metas : List (String × String)) : List String → Option String
  | [] => none
  | n :: ns =>
    match lookupMeta metas n with
    | some v => if v = "" then getMeta metas ns else some (jsTrim v)
    | none => getMeta metas ns

/-- `s.replace('www.', '')`: remove the first occurrence only. -/
def removeFirstOcc (pat : List Char) : List Char → List Char
  | [] => []
  | c :: rest =>
    if pat.isPrefixOf (c :: rest) then (c :: rest).drop pat.length
    else c :: removeFirstOcc pat rest

def removeWww (host : String) : String :=
  String.mk (removeFirstOcc "www.".data host.data)

/-- `extractMetadata` from `content.js`. -/
def extractMetadata (env : PageEnv) : MetadataRecord :=
  let titleFromMeta := getMeta env.metas ["og:title", "twitter:title"]
  let sourceFromMeta := getMeta env.metas ["og:site_name", "twitter:site", "application-name"]
  let descriptionFromMeta := getMeta env.metas ["og:description", "twitter:description", "description"]
  let authorFromMeta := getMeta env.metas ["author", "article:author", "twitter:creator"]
  let wc := computeWordCount (Option.bind env.defuddle DefuddleResult.wordCount) env.bodyText
  { title := (firstTruthy [Option.bind env.defuddle DefuddleResult.title,
      titleFromMeta, some env.docTitle]).getD "Untitled"
    url := env.href
    domain := (firstTruthy [Option.bind env.defuddle DefuddleResult.domain,
      some (removeWww env.hostname)]).getD ""
    source := (firstTruthy [sourceFromMeta,
      Option.bind env.defuddle DefuddleResult.siteName,
      Option.bind env.defuddle DefuddleResult.site,
      Option.bind env.defuddle DefuddleResult.publication,
      Option.bind env.defuddle DefuddleResult.domain,
      some (removeWww env.hostname)]).getD ""
    description := jsOrS (Option.bind env.defuddle DefuddleResult.description) descriptionFromMeta
    author := jsOrS (Option.bind env.defuddle DefuddleResult.author) authorFromMeta
    publishedDate := jsOrS (Option.bind env.defuddle DefuddleResult.published)
      (getMeta env.metas ["article:published_time"])
    tags := extractTags env.keywordsContent env.tagLinkTexts
    wordCount := wc
    readingTime := computeReadingTime wc }

/-- A concrete page: the heuristic guesses both a site name and an
author, and the document carries `og:site_name` and `article:author`
meta tags with different values. -/
def envSourceClash : PageEnv :=
  { metas := [("og:site_name", "MetaSite"), ("article:author", "MetaAuthor")]
    docTitle := "T"
    href := "https://example.com/a"
    hostname := "example.com"
    bodyText := "one two"
    keywordsContent := none
    tagLinkTexts := []
    defuddle := some { siteName := some "HeurSite", author := some "HeurAuthor" } }

/-- C3 counterexample: for the `source` field the meta tag wins over the
heuristic's guess, so heuristic-over-meta priority does not hold for
every field. -/
theorem extractMetadata_source_cex :
    Option.bind envSourceClash.defuddle DefuddleResult.siteName = some "HeurSite"
    ∧ getMeta envSourceClash.metas ["og:site_name", "twitter:site", "application-name"]
        = some "MetaSite"
    ∧ (extractMetadata envSourceClash).source = "MetaSite"
    ∧ "MetaSite" ≠ "HeurSite" := by
  refine ⟨rfl, by decide, by decide, by decide⟩

/-- C3 (amended): heuristic-over-meta priority holds for the title,
description, author and publishedDate fields — in particular a heuristic
author beats an `article:author` meta tag — while for the `source` field
a truthy meta value (`og:site_name` → `twitter:site` →
`application-name`) takes priority over the heuristic's guesses. -/
theorem extractMetadata_priority (env : PageEnv) :
    (∀ a, Option.bind env.defuddle DefuddleResult.author = some a → a ≠ "" →
      (extractMetadata env).author = some a)
    ∧ (∀ t, Option.bind env.defuddle DefuddleResult.title = some t → t ≠ "" →
      (extractMetadata env).title = t)
    ∧ (∀ d, Option.bind env.defuddle DefuddleResult.description = some d → d ≠ "" →
      (extractMetadata env).description = some d)
    ∧ (∀ p, Option.bind env.defuddle DefuddleResult.published = some p → p ≠ "" →
      (extractMetadata env).publishedDate = some p)
    ∧ (∀ s, getMeta env.metas ["og:site_name", "twitter:site", "application-name"]
        = some s → s ≠ "" → (extractMetadata env).source = s) := by
  refine ⟨?_, ?_, ?_, ?_, ?_⟩
  · intro a ha hne
    simp [extractMetadata, ha, jsOrS, hne]
  · intro t ht hne
    simp [extractMetadata, ht, firstTruthy, hne]
  · intro d hd hne
    simp [extractMetadata, hd, jsOrS, hne]
  · intro p hp hne
    simp [extractMetadata, hp, jsOrS, hne]
  · intro s hs hne
    simp [extractMetadata, hs, firstTruthy, hne]

theorem extractMetadata_priority_witness :
    (extractMetadata envSourceClash).author = some "HeurAuthor"
    ∧ (extractMetadata envSourceClash).source = "MetaSite" :=
  ⟨(extractMetadata_priority envSourceClash).1 "HeurAuthor" rfl (by decide),
   (extractMetadata_priority envSourceClash).2.2.2.2 "MetaSite" (by decide) (by decide)⟩

/-! ### C8: source-HTML choice in `convertToMarkdown` (content.js 237–262) -/

/-- Substring test: `hay.includes(needle)`. -/
def containsSubL (needle : List Char) : List Char → Bool
  | [] => needle.isPrefixOf ([] : List Char)
  | c :: rest => needle.isPrefixOf (c :: rest) || containsSubL needle rest

def containsSub (hay needle : String) : Bool := containsSubL needle.data hay.data

/-- JS truthiness of a nullable string. -/
def jsTruthy : Option String → Bool
  | none => false
  | some s => !(s == "")

/-- The working-source choice of `convertToMarkdown`: revert to the full
body HTML iff the defuddle HTML is truthy, the page has a recognized
mermaid SVG, and the defuddle HTML contains neither `<svg` nor
`mermaid-`; otherwise use the defuddle HTML, falling back to the
content element's HTML. -/
def chooseSourceHtml (defuddleHtml : Option String) (pageHasMermaidSvg : Bool)
    (bodyInnerHtml contentInnerHtml : String) : String :=
  let cand := defuddleHtml.getD ""
  if jsTruthy defuddleHtml && pageHasMermaidSvg
      && !(containsSub cand "<svg") && !(containsSub cand "mermaid-") then
    bodyInnerHtml
  else if jsTruthy defuddleHtml then cand else contentInnerHtml

/-- C8: the revert fires exactly when the original document has a
recognized diagram graphic and the extracted HTML has neither diagram
markup nor the diagram-id token; otherwise the extracted content HTML
(or, when extraction yielded nothing, the fallback content element's
HTML) is used. -/
theorem chooseSourceHtml_spec (defuddleHtml : Option String)
    (pageHasMermaidSvg : Bool) (bodyHtml contentHtml : String) :
    (∀ h, defuddleHtml = some h → h ≠ "" → pageHasMermaidSvg = true →
      containsSub h "<svg" = false → containsSub h "mermaid-" = false →
      chooseSourceHtml defuddleHtml pageHasMermaidSvg bodyHtml contentHtml = bodyHtml)
    ∧ (∀ h, defuddleHtml = some h → h ≠ "" →
      (pageHasMermaidSvg = false ∨ containsSub h "<svg" = true ∨
        containsSub h "mermaid-" = true) →
      chooseSourceHtml defuddleHtml pageHasMermaidSvg bodyHtml contentHtml = h)
    ∧ ((defuddleHtml = none ∨ defuddleHtml = some "") →
      chooseSourceHtml defuddleHtml pageHasMermaidSvg bodyHtml contentHtml = contentHtml) := by
  refine ⟨?_, ?_, ?_⟩
  · intro h hd hne hpg hsvg hmer
    subst hd hpg
    simp [chooseSourceHtml, jsTruthy, hne, hsvg, hmer]
  · intro h hd hne hcase
    subst hd
    rcases hcase with h1 | h1 | h1 <;>
      simp [chooseSourceHtml, jsTruthy, hne, h1]
  · intro hcase
    rcases hcase with h1 | h1 <;> subst h1 <;> simp [chooseSourceHtml, jsTruthy]

theorem chooseSourceHtml_spec_witness :
    chooseSourceHtml (some "<p>x</p>") true "BODY" "CONTENT" = "BODY" :=
  (chooseSourceHtml_spec (some "<p>x</p>") true "BODY" "CONTENT").1
    "<p>x</p>" rfl (by decide) rfl (by decide) (by decide)

/-! ### C9: conversion failure in `processPage` (content.js 191–205, 227–228) -/

/-- Outcome of one `processPage` invocation: either the result pair is
messaged to the background shell, or the user is alerted. -/
inductive PageOutcome where
  | sent (markdown : String) (metadata : MetadataRecord)
  | alerted (message : String)

/-- `convertToMarkdown`'s failure behaviour: throws when the transducer
is uninitialized; otherwise the transducer itself may throw
(`conversion = .error`) or produce markdown. -/
def convertToMarkdownE (turndownInitialized : Bool)
    (conversion : Except String String) : Except String String :=
  if turndownInitialized then conversion else Except.error "Turndown not initialized"

/-- `processPage`'s try/catch: the markdown is sent to the background
only if conversion succeeds; any thrown error is surfaced via `alert`
and nothing is sent. -/
def processPage (turndownInitialized : Bool)
    (conversion : Except String String) (metadata : MetadataRecord) : PageOutcome :=
  match convertToMarkdownE turndownInitialized conversion with
  | Except.error e => PageOutcome.alerted ("Failed to convert page: " ++ e)
  | Except.ok md => PageOutcome.sent md metadata

/-- C9: if the transducer is uninitialized or throws, the invocation
alerts the user and sends no result message — no partial markdown is
emitted. -/
theorem processPage_conversionFailure (turndownInitialized : Bool)
    (conversion : Except String String) (metadata : MetadataRecord)
    (hfail : turndownInitialized = false ∨ ∃ e, conversion = Except.error e) :
    (∃ msg, processPage turndownInitialized conversion metadata = PageOutcome.alerted msg)
    ∧ ∀ md m, processPage turndownInitialized conversion metadata ≠ PageOutcome.sent md m := by
  have halert : ∃ e, convertToMarkdownE turndownInitialized conversion = Except.error e := by
    rcases hfail with h | ⟨e, he⟩
    · subst h
      exact ⟨"Turndown not initialized", rfl⟩
    · subst he
      rcases turndownInitialized with _ | _
      · exact ⟨"Turndown not initialized", rfl⟩
      · exact ⟨e, rfl⟩
  obtain ⟨e, he⟩ := halert
  constructor
  · exact ⟨"Failed to convert page: " ++ e, by simp [processPage, he]⟩
  · intro md m
    simp [processPage, he]

/-- A throwaway metadata record for instantiating `processPage`. -/
def sampleMetadata : MetadataRecord :=
  { title := "T", url := "u", domain := "d", source := "s", description := none
    author := none, publishedDate := none, tags := [], wordCount := 1, readingTime := 1 }

theorem processPage_conversionFailure_witness :
    (∃ msg, processPage false (Except.ok "# md") sampleMetadata = PageOutcome.alerted msg)
    ∧ ∀ md m, processPage false (Except.ok "# md") sampleMetadata ≠ PageOutcome.sent md m :=
  processPage_conversionFailure false (Except.ok "# md") sampleMetadata (Or.inl rfl)

/-! ### C2: mermaid SVG recognition and replacement
(content.js lines 78–98 and 284–441) -/

/-- JS `\w`: ASCII letter, digit or underscore. -/
def isWordChar (c : Char) : Bool :=
  (('a' ≤ c && c ≤ 'z') || ('A' ≤ c && c ≤ 'Z') || ('0' ≤ c && c ≤ '9') || c = '_')

def toLowerL (l : List Char) : List Char := l.map Char.toLower

def toLowerS (s : String) : String := String.mk (toLowerL s.data)

/-- Head of a list is not a word character (true for the empty list):
the right-hand `\b` condition. -/
def headNotWordChar : List Char → Bool
  | [] => true
  | c :: _ => !(isWordChar c)

/-- `prev` is no word character (true at the start of the string): the
left-hand `\b` condition. -/
def prevNotWordChar : Option Char → Bool
  | none => true
  | some c => !(isWordChar c)

/-- `new RegExp('\\b' + word + '\\b', 'i').test(hay)` for a non-empty
all-word-character `word` given in lowercase. -/
def wbScan (word : List Char) : Option Char → List Char → Bool
  | _, [] => false
  | prev, c :: rest =>
    (prevNotWordChar prev && word.isPrefixOf (toLowerL (c :: rest)) &&
      headNotWordChar ((c :: rest).drop word.length))
    || wbScan word (some c) rest

def testWordBoundaryI (word hay : String) : Bool :=
  wbScan word.data none hay.data

/-- Case-insensitive `hay.includes(needle)`, i.e. `/needle/i.test(hay)`. -/
def containsSubI (hay needle : String) : Bool :=
  containsSubL (toLowerL needle.data) (toLowerL hay.data)

/-- The attribute values the mermaid checks read off an `svg` element
(`getAttribute(...) || ''`). -/
structure SvgAttrs where
  id : String := ""
  className : String := ""
  roleDesc : String := ""

/-- The shared recognition predicate of the `mermaidSvg` turndown rule
and the `normalizeContentHtml` SVG pass: id starts with `mermaid-`, or
the class matches `/\bmermaid\b/i` or `/\bflowchart\b/i`, or the
`aria-roledescription` matches `/flowchart/i`. -/
def isMermaidSvg (a : SvgAttrs) : Bool :=
  "mermaid-".data.isPrefixOf a.id.data ||
  testWordBoundaryI "mermaid" a.className ||
  testWordBoundaryI "flowchart" a.className ||
  containsSubI a.roleDesc "flowchart"

/-- `(src || '').split(/\r?\n/).map(l => l.trim()).find(Boolean) || ''`:
first non-blank trimmed line (splitting on `\n` and trimming each piece
yields the same trimmed lines as splitting on `\r?\n`, since `trim`
removes a trailing `\r`). -/
def firstNonBlankLine (src : String) : String :=
  String.mk ((((splitOnCharAux '\n' src.data []).map jsTrimL).find?
    (fun l => !(l.isEmpty))).getD [])

/-- The diagram subtype expected for an SVG, from its lowercased class
and role description (`pickRawMermaidSourceForSvg`, three sequential
overriding checks). -/
def expectedTypeForSvg (a : SvgAttrs) : String :=
  let className := toLowerS a.className
  let roleDesc := toLowerS a.roleDesc
  let e1 := if containsSub className "statediagram" || containsSub roleDesc "state" then
    "state" else "graph"
  let e2 := if containsSub className "sequencediagram" || containsSub roleDesc "sequence" then
    "sequence" else e1
  if containsSub className "flowchart" || containsSub roleDesc "flowchart" then "graph" else e2

/-- `matchesType` inside `pickRawMermaidSourceForSvg`. -/
def matchesType (expected : String) (src : String) : Bool :=
  let first := toLowerL (firstNonBlankLine src).data
  if expected = "state" then "statediagram".data.isPrefixOf first
  else if expected = "sequence" then "sequencediagram".data.isPrefixOf first
  else "graph".data.isPrefixOf first || "flowchart".data.isPrefixOf first

/-- The scan loop of `pickRawMermaidSourceForSvg` over
`raws.drop startIndex`, carrying the absolute index. -/
def pickScanL (a : SvgAttrs) : List String → Nat → Option (String × Nat)
  | [], _ => none
  | c :: cs, i =>
    if !(c == "") && matchesType (expectedTypeForSvg a) c then some (c, i + 1)
    else pickScanL a cs (i + 1)

/-- `pickRawMermaidSourceForSvg(svg, raws, startIndex)`:
`(source, nextIndex, used)`. -/
def pickRawMermaidSourceForSvg (a : SvgAttrs) (raws : List String)
    (startIndex : Nat) : String × Nat × Bool :=
  match pickScanL a (raws.drop startIndex) startIndex with
  | some (c, next) => (c, next, true)
  | none =>
    let fallback := raws.getD startIndex ""
    if fallback = "" then ("", startIndex, false) else (fallback, startIndex + 1, true)

/-- One `svg` element of the content, with the results of the two
DOM-dependent recovery helpers abstracted as oracle fields:
`extractedSource` is what `extractMermaidSource(svg)` returns (`''`
when nothing is found) and `dataUri` is what `svgToDataUri(svg)`
returns (`''` when serialization fails). -/
structure SvgNode where
  attrs : SvgAttrs
  extractedSource : String
  dataUri : String

/-- What a recognized SVG is replaced with in `normalizeContentHtml`:
a `pre`/`code` block carrying the recovered source (tagged
`language-mermaid` and marked synthesized), an `img` with the
serialized data URI (`alt="Mermaid diagram"`), or the paragraph
`[Mermaid diagram omitted: source not found in page HTML]`. -/
inductive MermaidReplacement where
  | codeBlock (source : String)
  | image (dataUri : String)
  | placeholder

/-- The body of the `for (const svg of svgs)` loop for one recognized
SVG: try the extracted source, then (while raw sources remain) the raw
scan, then the data-URI image, then the placeholder; returns the
replacement and the updated raw index. -/
def processSvg (svg : SvgNode) (raws : List String) (idx : Nat) :
    MermaidReplacement × Nat :=
  let s0 := svg.extractedSource
  let pick :=
    if s0 = "" ∧ idx < raws.length then
      let p := pickRawMermaidSourceForSvg svg.attrs raws idx
      (p.1, p.2.1)
    else (s0, idx)
  if pick.1 = "" then
    (if svg.dataUri = "" then MermaidReplacement.placeholder
     else MermaidReplacement.image svg.dataUri, pick.2)
  else (MermaidReplacement.codeBlock pick.1, pick.2)

/-- The SVG pass of `normalizeContentHtml` over the body's `svg`
elements in document order: recognized SVGs are replaced, others are
left in place. -/
def processSvgs : List SvgNode → List String → Nat →
    List (SvgNode ⊕ MermaidReplacement)
  | [], _, _ => []
  | svg :: rest, raws, idx =>
    if isMermaidSvg svg.attrs then
      let pr := processSvg svg raws idx
      Sum.inr pr.1 :: processSvgs rest raws pr.2
    else Sum.inl svg :: processSvgs rest raws idx

/-- The `mermaidSvg` turndown rule's replacement (the fallback path for
any recognized SVG the normalizer did not rewrite). -/
def mermaidSvgRuleReplacement (source : String) : String :=
  "\n\n" ++ computeFence source ++ "mermaid" ++ "\n" ++ source ++ "\n" ++
    computeFence source ++ "\n\n"

theorem mermaidSvgRuleReplacement_ne_empty (source : String) :
    mermaidSvgRuleReplacement source ≠ "" := by
  intro h
  have hlen := congrArg String.length h
  rw [mermaidSvgRuleReplacement] at hlen
  simp [String.length_append] at hlen
  exact absurd hlen.1.1.1.1.1.1.1 (by decide)

/-- C2: the SVG pass keeps list length, never drops a recognized SVG —
each becomes one of the three replacements — leaves unrecognized SVGs
untouched, and the fallback turndown rule always emits a non-empty
fenced block. -/
theorem processSvgs_spec (svgs : List SvgNode) (raws : List String) (idx : Nat) :
    (processSvgs svgs raws idx).length = svgs.length
    ∧ (∀ k svg, svgs.get? k = some svg →
        (isMermaidSvg svg.attrs = true →
          ∃ r, (processSvgs svgs raws idx).get? k = some (Sum.inr r))
        ∧ (isMermaidSvg svg.attrs = false →
          (processSvgs svgs raws idx).get? k = some (Sum.inl svg)))
    ∧ (∀ source : String, mermaidSvgRuleReplacement source ≠ "") := by
  refine ⟨?_, ?_, mermaidSvgRuleReplacement_ne_empty⟩
  · induction svgs generalizing idx with
    | nil => rfl
    | cons svg rest ih =>
      by_cases hm : isMermaidSvg svg.attrs
      · simp only [processSvgs, if_pos hm, List.length_cons, ih]
      · simp only [processSvgs, if_neg hm, List.length_cons, ih]
  · induction svgs generalizing idx with
    | nil =>
      intro k svg hk
      simp [List.get?] at hk
    | cons s rest ih =>
      intro k svg hk
      rcases k with _ | k
      · simp only [List.get?] at hk
        injection hk with hk
        subst hk
        by_cases hm : isMermaidSvg s.attrs = true
        · refine ⟨fun _ => ?_, fun hf => ?_⟩
          · exact ⟨(processSvg s raws idx).1, by simp [processSvgs, hm, List.get?]⟩
          · rw [hm] at hf
            exact absurd hf (by simp)
        · have hm' : isMermaidSvg s.attrs = false := eq_false_of_ne_true hm
          refine ⟨fun ht => absurd ht hm, fun _ => ?_⟩
          simp [processSvgs, hm', List.get?]
      · simp only [List.get?] at hk
        by_cases hm : isMermaidSvg s.attrs = true
        · have hrec := ih ((processSvg s raws idx).2) k svg hk
          refine ⟨fun ht => ?_, fun hf => ?_⟩
          · obtain ⟨r, hr⟩ := hrec.1 ht
            exact ⟨r, by simpa [processSvgs, hm, List.get?] using hr⟩
          · have h2 := hrec.2 hf
            simpa [processSvgs, hm, List.get?] using h2
        · have hm' : isMermaidSvg s.attrs = false := eq_false_of_ne_true hm
          have hrec := ih idx k svg hk
          refine ⟨fun ht => ?_, fun hf => ?_⟩
          · obtain ⟨r, hr⟩ := hrec.1 ht
            exact ⟨r, by simpa [processSvgs, hm', List.get?] using hr⟩
          · have h2 := hrec.2 hf
            simpa [processSvgs, hm', List.get?] using h2

/-- A recognized diagram SVG (id prefix `mermaid-`) with no recoverable
source and no serializable image. -/
def svgNoSource : SvgNode :=
  { attrs := { id := "mermaid-1" }, extractedSource := "", dataUri := "" }

theorem processSvgs_spec_witness :
    isMermaidSvg svgNoSource.attrs = true
    ∧ (∃ r, (processSvgs [svgNoSource] [] 0).get? 0 = some (Sum.inr r)) :=
  ⟨by decide,
   ((processSvgs_spec [svgNoSource] [] 0).2.1 0 svgNoSource rfl).1 (by decide)⟩

/-! ### C4: heading/link rules (content.js lines 115–161, 703–710) -/

/-- A DOM node of the normalized content tree: an element with tag name
(uppercase, as `nodeName` reports), attributes and ordered children, or
a text node. -/
inductive HNode where
  | element (tag : String) (attrs : List (String × String)) (children : List HNode)
  | text (s : String)

mutual

def textContent : HNode → String
  | HNode.text s => s
  | HNode.element _ _ cs => textContentList cs

def textContentList : List HNode → String
  | [] => ""
  | n :: ns => textContent n ++ textContentList ns

end

def HNode.tag : HNode → String
  | .element t _ _ => t
  | .text _ => "#text"

def HNode.childNodes : HNode → List HNode
  | .element _ _ cs => cs
  | .text _ => []

/-- `/^H[1-6]$/` test plus `Number.parseInt(nodeName.substring(1))`. -/
def headingLevel? (tag : String) : Option Nat :=
  if tag = "H1" then some 1 else if tag = "H2" then some 2
  else if tag = "H3" then some 3 else if tag = "H4" then some 4
  else if tag = "H5" then some 5 else if tag = "H6" then some 6 else none

def isHeadingTag (tag : String) : Bool := (headingLevel? tag).isSome

mutual

/-- `node.querySelector('h1, h2, h3, h4, h5, h6')` over a child list:
first heading in pre-order (a node itself, else inside it, else its
later siblings). -/
def findHeadingIn : List HNode → Option HNode
  | [] => none
  | c :: cs =>
    match findHeadingSelfOr c with
    | some h => some h
    | none => findHeadingIn cs

def findHeadingSelfOr : HNode → Option HNode
  | HNode.text _ => none
  | HNode.element t a ch =>
    if isHeadingTag t then some (HNode.element t a ch)
    else findHeadingIn ch

end

def queryHeading (n : HNode) : Option HNode := findHeadingIn n.childNodes

def hashRepeat (k : Nat) : String := String.mk (List.replicate k '#')

/-- `headingLinks` replacement (content.js 140–145): the heading's own
level and trimmed `textContent` — the inner link leaves no trace. -/
def headingLinksReplacement (n : HNode) : String :=
  "\n\n" ++ hashRepeat ((headingLevel? n.tag).getD 0) ++ " " ++
    jsTrim (textContent n) ++ "\n\n"

/-- `linkedHeadings` replacement (content.js 150–156): the descendant
heading's level and trimmed text (level 1 and the link's own text if no
heading is found, which the filter rules out). -/
def linkedHeadingsReplacement (n : HNode) : String :=
  match queryHeading n with
  | some h =>
    "\n\n" ++ hashRepeat ((headingLevel? h.tag).getD 0) ++ " " ++
      jsTrim (textContent h) ++ "\n\n"
  | none => "\n\n" ++ hashRepeat 1 ++ " " ++ jsTrim (textContent n) ++ "\n\n"

def isAnchorNode (n : HNode) : Bool := n.tag == "A"

/-- Keep element children and non-blank text children
(`!(n.nodeType === TEXT_NODE && !n.textContent.trim())`). -/
def nonBlankChild (n : HNode) : Bool :=
  match n with
  | HNode.text s => !(jsTrim s == "")
  | HNode.element _ _ _ => true

/-- `headingLinks` filter (content.js 126–139): a heading with exactly
one direct anchor child, or whose only non-blank child is an anchor. -/
def headingLinksFilter (n : HNode) : Bool :=
  isHeadingTag n.tag &&
    ((n.childNodes.filter isAnchorNode).length == 1 ||
      (match n.childNodes.filter nonBlankChild with
       | [c] => isAnchorNode c
       | _ => false))

def cleanHeadingsFilter (n : HNode) : Bool := isHeadingTag n.tag

/-- `linkedHeadings` filter (content.js 149): an anchor with a heading
descendant. -/
def linkedHeadingsFilter (n : HNode) : Bool :=
  isAnchorNode n && (queryHeading n).isSome

/-- turndown string filter `'figure'`: lowercased nodeName comparison. -/
def figureFilter (n : HNode) : Bool := toLowerS n.tag == "figure"

/-- `inlineCode` filter (content.js 104).  The source also requires the
parent not to be a `PRE`; a parent pointer is not representable on a
standalone tree value, and the conjunct only narrows the filter — on
every non-`CODE` node both versions are false. -/
def inlineCodeFilter (n : HNode) : Bool := n.tag == "CODE"

def getAttr (attrs : List (String × String)) (name : String) : String :=
  ((attrs.find? (fun p => p.1 == name)).map Prod.snd).getD ""

def svgAttrsOfNode : HNode → SvgAttrs
  | HNode.element _ attrs _ =>
    { id := getAttr attrs "id", className := getAttr attrs "class",
      roleDesc := getAttr attrs "aria-roledescription" }
  | HNode.text _ => {}

def mermaidSvgFilter (n : HNode) : Bool :=
  toLowerS n.tag == "svg" && isMermaidSvg (svgAttrsOfNode n)

def preformattedCodeFilter (n : HNode) : Bool := n.tag == "PRE"

structure NamedFilter where
  name : String
  accepts : HNode → Bool

/-- The custom rules in final priority order, ahead of the transducer's
base rules: turndown's `addRule` prepends each rule, and
`prioritizeRule` then moves the three heading rules (cleanHeadings,
headingLinks, linkedHeadings, in that call order) to the front, before
`figure` is added last.  The resulting front-to-back order is figure,
linkedHeadings, headingLinks, cleanHeadings, inlineCode, mermaidSvg,
preformattedCode. -/
def customRules : List NamedFilter :=
  [⟨"figure", figureFilter⟩,
   ⟨"linkedHeadings", linkedHeadingsFilter⟩,
   ⟨"headingLinks", headingLinksFilter⟩,
   ⟨"cleanHeadings", cleanHeadingsFilter⟩,
   ⟨"inlineCode", inlineCodeFilter⟩,
   ⟨"mermaidSvg", mermaidSvgFilter⟩,
   ⟨"preformattedCode", preformattedCodeFilter⟩]

/-- turndown dispatch: the first rule whose filter accepts the node. -/
def firstMatch : List NamedFilter → HNode → Option String
  | [], _ => none
  | r :: rs, n => if r.accepts n then some r.name else firstMatch rs n

theorem headingLevel_cases (tag : String) (lv : Nat)
    (h : headingLevel? tag = some lv) :
    (tag = "H1" ∧ lv = 1) ∨ (tag = "H2" ∧ lv = 2) ∨ (tag = "H3" ∧ lv = 3) ∨
    (tag = "H4" ∧ lv = 4) ∨ (tag = "H5" ∧ lv = 5) ∨ (tag = "H6" ∧ lv = 6) := by
  unfold headingLevel? at h
  split_ifs at h with h1 h2 h3 h4 h5 h6
  · injection h with h'; exact Or.inl ⟨h1, h'.symm⟩
  · injection h with h'; exact Or.inr (Or.inl ⟨h2, h'.symm⟩)
  · injection h with h'; exact Or.inr (Or.inr (Or.inl ⟨h3, h'.symm⟩))
  · injection h with h'; exact Or.inr (Or.inr (Or.inr (Or.inl ⟨h4, h'.symm⟩)))
  · injection h with h'
    exact Or.inr (Or.inr (Or.inr (Or.inr (Or.inl ⟨h5, h'.symm⟩))))
  · injection h with h'
    exact Or.inr (Or.inr (Or.inr (Or.inr (Or.inr ⟨h6, h'.symm⟩))))

theorem figureFilter_of_heading (tag : String) (lv : Nat)
    (hlv : headingLevel? tag = some lv) (attrs : List (String × String))
    (children : List HNode) :
    figureFilter (HNode.element tag attrs children) = false := by
  rcases headingLevel_cases tag lv hlv with ⟨rfl, _⟩ | ⟨rfl, _⟩ | ⟨rfl, _⟩ |
    ⟨rfl, _⟩ | ⟨rfl, _⟩ | ⟨rfl, _⟩ <;> rfl

theorem linkedHeadingsFilter_of_heading (tag : String) (lv : Nat)
    (hlv : headingLevel? tag = some lv) (attrs : List (String × String))
    (children : List HNode) :
    linkedHeadingsFilter (HNode.element tag attrs children) = false := by
  rcases headingLevel_cases tag lv hlv with ⟨rfl, _⟩ | ⟨rfl, _⟩ | ⟨rfl, _⟩ |
    ⟨rfl, _⟩ | ⟨rfl, _⟩ | ⟨rfl, _⟩ <;> rfl

theorem headingLinksFilter_of_single_link (tag : String)
    (attrs aAttrs : List (String × String)) (children aChildren : List HNode)
    (hht : isHeadingTag tag = true)
    (hch : children.filter nonBlankChild = [HNode.element "A" aAttrs aChildren]) :
    headingLinksFilter (HNode.element tag attrs children) = true := by
  unfold headingLinksFilter
  simp only [HNode.tag, HNode.childNodes, hht, Bool.true_and, hch]
  rw [show isAnchorNode (HNode.element "A" aAttrs aChildren) = true from rfl,
    Bool.or_true]

theorem firstMatch_headingLinks (n : HNode)
    (hfig : figureFilter n = false) (hlinked : linkedHeadingsFilter n = false)
    (hhl : headingLinksFilter n = true) :
    firstMatch customRules n = some "headingLinks" := by
  simp [customRules, firstMatch, hfig, hlinked, hhl]

theorem firstMatch_linkedHeadings (n : HNode)
    (hfig : figureFilter n = false) (hlinked : linkedHeadingsFilter n = true) :
    firstMatch customRules n = some "linkedHeadings" := by
  simp [customRules, firstMatch, hfig, hlinked]

/-- C4: a heading whose only non-blank child is a single link dispatches
to `headingLinks` and emits hashes-space-trimmed-text with no link
syntax; a link containing a heading dispatches to `linkedHeadings` and
emits the same clean form at the descendant heading's level; and
`<h2><a href="#x">Title</a></h2>` converts (after post-processing) to
`## Title`. -/
theorem headingRules_spec :
    (∀ (lv : Nat) (tag : String) (attrs aAttrs : List (String × String))
        (children aChildren : List HNode),
      headingLevel? tag = some lv →
      children.filter nonBlankChild = [HNode.element "A" aAttrs aChildren] →
      firstMatch customRules (HNode.element tag attrs children) = some "headingLinks"
      ∧ headingLinksReplacement (HNode.element tag attrs children) =
          "\n\n" ++ hashRepeat lv ++ " " ++
            jsTrim (textContent (HNode.element tag attrs children)) ++ "\n\n")
    ∧ (∀ (lv : Nat) (htag : String) (attrs hAttrs : List (String × String))
        (children hChildren : List HNode),
      findHeadingIn children = some (HNode.element htag hAttrs hChildren) →
      headingLevel? htag = some lv →
      firstMatch customRules (HNode.element "A" attrs children) = some "linkedHeadings"
      ∧ linkedHeadingsReplacement (HNode.element "A" attrs children) =
          "\n\n" ++ hashRepeat lv ++ " " ++
            jsTrim (textContent (HNode.element htag hAttrs hChildren)) ++ "\n\n")
    ∧ cleanupMarkdown (headingLinksReplacement (HNode.element "H2" []
        [HNode.element "A" [("href", "#x")] [HNode.text "Title"]])) = "## Title" := by
  refine ⟨?_, ?_, by decide⟩
  · intro lv tag attrs aAttrs children aChildren hlv hch
    have hht : isHeadingTag tag = true := by rw [isHeadingTag, hlv]; rfl
    refine ⟨firstMatch_headingLinks _
        (figureFilter_of_heading tag lv hlv attrs children)
        (linkedHeadingsFilter_of_heading tag lv hlv attrs children)
        (headingLinksFilter_of_single_link tag attrs aAttrs children aChildren hht hch),
      ?_⟩
    unfold headingLinksReplacement
    simp only [HNode.tag, hlv, Option.getD_some]
  · intro lv htag attrs hAttrs children hChildren hfind hlv
    have hlinked : linkedHeadingsFilter (HNode.element "A" attrs children) = true := by
      unfold linkedHeadingsFilter queryHeading
      simp only [HNode.tag, HNode.childNodes, hfind]
      rfl
    refine ⟨firstMatch_linkedHeadings _ rfl hlinked, ?_⟩
    unfold linkedHeadingsReplacement queryHeading
    simp only [HNode.childNodes, hfind, HNode.tag, hlv, Option.getD_some]

theorem headingRules_spec_witness :
    (firstMatch customRules (HNode.element "H2" []
        [HNode.element "A" [("href", "#x")] [HNode.text "Title"]]) =
      some "headingLinks"
    ∧ headingLinksReplacement (HNode.element "H2" []
        [HNode.element "A" [("href", "#x")] [HNode.text "Title"]]) =
      "\n\n" ++ hashRepeat 2 ++ " " ++
        jsTrim (textContent (HNode.element "H2" []
          [HNode.element "A" [("href", "#x")] [HNode.text "Title"]])) ++ "\n\n")
    ∧ (firstMatch customRules (HNode.element "A" [("href", "#x")]
        [HNode.element "H3" [] [HNode.text "T"]]) = some "linkedHeadings") :=
  ⟨headingRules_spec.1 2 "H2" [] [("href", "#x")]
      [HNode.element "A" [("href", "#x")] [HNode.text "Title"]] [HNode.text "Title"]
      rfl rfl,
   (headingRules_spec.2.1 3 "H3" [("href", "#x")] [] [HNode.element "H3" [] [HNode.text "T"]]
      [HNode.text "T"] rfl rfl).1⟩

theorem preformattedCode_spec_witness :
    jsTrim " x = 1 " ≠ "" ∧
    preformattedCodeReplacement "python" " x = 1 " =
      "\n\n" ++ computeFence (jsTrim " x = 1 ") ++ "python" ++ "\n" ++
        jsTrim " x = 1 " ++ "\n" ++ computeFence (jsTrim " x = 1 ") ++ "\n\n" :=
  ⟨by decide, (((preformattedCode_spec "python" " x = 1 " (jsTrim " x = 1 ") rfl).1) (by decide)).1⟩

end PageToMD
